import Mathlib

/-!
Verification of the runtime type-discipline layer of the scriptum library
(src/index.js): the type descriptor engine (`introspect`), the guarded call
wrapper (`$` / `handleF`), the overload registry (`overload`), the global call
history (`setHistory`) and the homogeneous array proxy (`Arr` / `setArr`).

JS values are shallowly embedded as the inductive type `Value`; JS `Map`s and
`Set`s are embedded as association lists preserving insertion order, matching
the observable behaviour of the originals.  Fallible JS code (code that can
throw) is embedded in the `Except PErr` monad, where `PErr` records the error
class and the data embedded in the error message.
-/

namespace Scriptum

/-! ### Globals (src/index.js lines 40-80) -/

/-- invalid types (src/index.js line 42): `new Set(["Undefined", "NaN", "Infinity"])` -/
def INVALID_TYPES : List String := ["Undefined", "NaN", "Infinity"]

/-- flag for controlling function guarding (src/index.js line 47) -/
def GUARDED : Bool := true

/-- length of global history log (src/index.js line 70) -/
def HISTORY_LEN : Nat := 10

/-- maximal tuple size (src/index.js line 1550) -/
def MAX_TUP_SIZE : Nat := 8

/-- maximal record size (src/index.js line 1446) -/
def MAX_REC_SIZE : Nat := 16

/-! ### The value model

A shallow embedding of the JS runtime values the library distinguishes.
`sig` stands for an object that carries the library's private `SIG` symbol
property (whose value `introspect` returns verbatim, line 244); `obj` covers
every other object, with its `Symbol.toStringTag` tag and its enumerable
string-keyed fields; `record` and `tuple` are instances of the library's
`Rec` and `Tup` classes (tags "Record" / "Tuple"). -/

/-- JS numbers as far as `introspect` distinguishes them: finite (embedded as
an integer), `NaN`, and `±Infinity`. -/
inductive NumVal where
  | finite (n : Int)
  | nan
  | inf
deriving DecidableEq, Repr

inductive Value where
  | bool (b : Bool)
  | num (n : NumVal)
  | str (s : String)
  | sym (description : String)
  | undef
  | null
  | fn (name : String)
  | arr (xs : List Value)
  | map (pairs : List (Value × Value))
  | set (elems : List Value)
  | record (fields : List (String × Value))
  | tuple (xs : List Value)
  | obj (tag : String) (fields : List (String × Value))
  | sig (s : String)
deriving Repr

/-! ### Errors

One constructor per throw site the claims depend on; each carries the data the
thrown message embeds.  `jsClass` recovers the JS error class. -/

inductive ErrClass where
  | argTypeError
  | argValueError
  | arityError
  | returnTypeError
  | typeCoercionError
  | overloadError
  | jsTypeError
deriving DecidableEq, Repr

inductive PErr where
  /-- guarded call received an argument of an invalid type
  (`verifyArgTypes`, lines 368-379); positions are the 1-based numbers the
  message renders via `ordinal(nthCall + 1)` / `ordinal(nthArg + 1)` -/
  | argType (name : String) (t : String) (nthCall : Nat) (nthArg : Nat) (log : List String)
  /-- `Arr` constructor rejected a heterogeneous array (lines 1579-1585) -/
  | argTypeHetero (ctor : String) (desc : String)
  /-- arity violation (`verifyArity`, lines 385-405); `variadic` distinguishes
  the "expects at least"-message of the `"var"` branch -/
  | arity (name : String) (expected actual : Nat) (nthCall : Nat) (variadic : Bool) (log : List String)
  /-- invalid return type (`verifyRetType`, lines 411-421) -/
  | retType (name : String) (t : String) (log : List String)
  /-- `setArr` index-gap violation: a JS `TypeError` (lines 1635-1640) -/
  | typeGap (pos : Nat)
  /-- `setArr` heterogeneity violation: a JS `TypeError` (lines 1642-1647),
  carrying `introspect(xs)` and `introspect(d.value)` from the message -/
  | typeHetero (containerT : String) (elemT : String)
  /-- JS `TypeError` from coercing a `Symbol` inside a template literal -/
  | typeSymbolCoercion
  /-- JS `TypeError` from `xs.length` when `s.match` returned `null`
  (`replaceNestings`, line 508) -/
  | typeNullMatch
  /-- `TypeCoercionError` thrown by the `Symbol.toPrimitive` of the given
  class (`Rec`/`Tup`/`Sum`/`Product` prototypes) -/
  | coercion (tag : String)
  /-- `OverloadError` (lines 569-575), carrying the operation name, the
  unresolved dispatch key and `introspect(x)` -/
  | overloadE (name : String) (key : String) (desc : String)
deriving DecidableEq, Repr

/-- The JS class of each embedded error. -/
def PErr.jsClass : PErr → ErrClass
  | .argType .. => .argTypeError
  | .argTypeHetero .. => .argTypeError
  | .arity .. => .arityError
  | .retType .. => .returnTypeError
  | .typeGap .. => .jsTypeError
  | .typeHetero .. => .jsTypeError
  | .typeSymbolCoercion => .jsTypeError
  | .typeNullMatch => .jsTypeError
  | .coercion .. => .typeCoercionError
  | .overloadE .. => .overloadError

/-! ### String coercion (template literals)

`introspectRec` (lines 334-344) builds the template string `` `${k}: ${r[k]}` ``,
which coerces the field value with JS `ToString`.  That coercion throws for a
`Symbol` (a JS `TypeError`) and for any value whose prototype carries the
throwing `Symbol.toPrimitive` the library installs on `Rec`, `Tup`, `Sum` and
`Product` (lines 1388-1545).  `jsToString` embeds exactly this coercion. -/

mutual

def jsToString : Value → Except PErr String
  | .bool b => .ok (if b then "true" else "false")
  | .num (.finite n) => .ok (toString n)
  | .num .nan => .ok "NaN"
  | .num .inf => .ok "Infinity"
  | .str s => .ok s
  | .sym _ => .error .typeSymbolCoercion
  | .undef => .ok "undefined"
  | .null => .ok "null"
  | .fn n => .ok ("function " ++ n)
  | .arr xs => do
      let parts ← jsJoinParts xs
      .ok (String.intercalate "," parts)
  | .map _ => .ok "[object Map]"
  | .set _ => .ok "[object Set]"
  | .record _ => .error (.coercion "Record")
  | .tuple _ => .error (.coercion "Tuple")
  | .obj tag _ =>
      if tag = "Sum" then .error (.coercion "Sum")
      else if tag = "Product" then .error (.coercion "Product")
      else .ok ("[object " ++ tag ++ "]")
  | .sig _ => .ok "[object Object]"

/-- `Array.prototype.join(",")`: `undefined` and `null` elements render as the
empty string, other elements are coerced with `ToString`. -/
def jsJoinParts : List Value → Except PErr (List String)
  | [] => .ok []
  | x :: xs => do
      let s ← match x with
        | .undef => .ok ""
        | .null => .ok ""
        | v => jsToString v
      let rest ← jsJoinParts xs
      .ok (s :: rest)

end

/-! ### The descriptor engine (src/index.js lines 230-362) -/

/-- JS `Set` insertion: append unless already present (insertion order is
preserved, `Array.from(s)[0]` is the first element inserted). -/
def addToSet (s : List String) (x : String) : List String :=
  if x ∈ s then s else s ++ [x]

/-- `r.length` of a `Rec` instance: `Rec` copies the fields onto the object
(`Object.assign`), so `length` is the field of that name when present and
`undefined` otherwise. -/
def recLengthField (fs : List (String × Value)) : Option Value :=
  (fs.find? (fun p => p.1 = "length")).map (·.2)

/-- introspect record (src/index.js lines 334-344).  The source maps each key
`k` to ``introspect(`${k}: ${r[k]}`)``: it coerces the field value into a
template string (which can throw, see `jsToString`) and then introspects the
resulting *string*, which is always `"String"`.  `r.length > MAX_REC_SIZE`
compares the `length` field; for an absent `length` the comparison
`undefined > 16` is false.  A finite-number field compares numerically and
`Infinity > 16` is true (`NumVal.inf` denotes positive infinity here; a
negative-infinity `length`, whose descriptor is likewise `"Infinity"`, would
fall through to the body).  A JS string `length` field would be coerced
numerically by `>`; that coercion is not modelled (a non-numeric string
coerces to `NaN` and falls through, as here), and no claim reaches a record
with a numeric-string `length` field. -/
def introspectRec (fs : List (String × Value)) : Except PErr String :=
  match recLengthField fs with
  | some (.num (.finite n)) =>
      if n > (MAX_REC_SIZE : Int) then .ok "Record<?>" else introspectRecBody fs
  | some (.num .inf) => .ok "Record<?>"
  | _ => introspectRecBody fs
where
  introspectRecBody (fs : List (String × Value)) : Except PErr String := do
    let parts ← recParts fs
    .ok ("Record<" ++ String.intercalate ", " parts ++ ">")
  recParts : List (String × Value) → Except PErr (List String)
    | [] => .ok []
    | (_, v) :: fs => do
        let _ ← jsToString v
        let rest ← recParts fs
        .ok ("String" :: rest)

/-- `Array.from(s)[0].split(": ")[1]` of a set entry `"k: t"` (line 313). -/
def secondPart (e : String) : String :=
  match e.splitOn ": " with
  | _ :: p :: _ => p
  | _ => "undefined"

mutual

/-- introspect (src/index.js lines 230-263). -/
def introspect : Value → Except PErr String
  | .bool _ => .ok "Boolean"
  | .fn n => .ok ("λ" ++ n)
  | .num .nan => .ok "NaN"
  | .num .inf => .ok "Infinity"
  | .num (.finite _) => .ok "Number"
  | .str _ => .ok "String"
  | .sym _ => .ok "Symbol"
  | .undef => .ok "Undefined"
  | .sig s => .ok s
  | .arr xs => introspectArr xs
  | .map ps => introspectMap ps
  | .null => .ok "Null"
  | .record fs => introspectRec fs
  | .set es => introspectSet es
  | .tuple xs => introspectTup xs
  | .obj tag fs => introspectObj fs tag

/-- map of `introspect` over a list of values, in order, propagating the
first throw. -/
def introspectList : List Value → Except PErr (List String)
  | [] => .ok []
  | x :: xs => do
      let t ← introspect x
      let rest ← introspectList xs
      .ok (t :: rest)

/-- entry strings `` `${introspect(k)}, ${introspect(v)}` `` of a map's pairs. -/
def introspectPairs : List (Value × Value) → Except PErr (List String)
  | [] => .ok []
  | (k, v) :: ps => do
      let tk ← introspect k
      let tv ← introspect v
      let rest ← introspectPairs ps
      .ok ((tk ++ ", " ++ tv) :: rest)

/-- entry strings `` `${k}: ${introspect(o[k])}` `` of an object's fields. -/
def introspectFields : List (String × Value) → Except PErr (List String)
  | [] => .ok []
  | (k, v) :: fs => do
      let t ← introspect v
      let rest ← introspectFields fs
      .ok ((k ++ ": " ++ t) :: rest)

/-- introspect array (src/index.js lines 266-288).  Both branches introspect
every element; the `reduce` builds the JS `Set` `s` (and, in the first branch,
the positional list `ts`). -/
def introspectArr (xs : List Value) : Except PErr String :=
  if xs.length ≤ MAX_TUP_SIZE then do
    let ts ← introspectList xs
    let s := ts.foldl addToSet []
    match s with
    | [t] => .ok ("[" ++ t ++ "]")
    | _ => .ok ("[" ++ String.intercalate ", " ts ++ "]")
  else do
    let ts ← introspectList xs
    let s := ts.foldl addToSet []
    match s with
    | [t] => .ok ("[" ++ t ++ "]")
    | _ => .ok "[?]"

/-- introspect map (src/index.js lines 293-298). -/
def introspectMap (ps : List (Value × Value)) : Except PErr String := do
  let es ← introspectPairs ps
  let s := es.foldl addToSet []
  match s with
  | [e] => .ok ("Map<" ++ e ++ ">")
  | _ => .ok "Map<?>"

/-- introspect set (src/index.js lines 349-354). -/
def introspectSet (els : List Value) : Except PErr String := do
  let es ← introspectList els
  let s := es.foldl addToSet []
  match s with
  | [e] => .ok ("Set<" ++ e ++ ">")
  | _ => .ok "Set<?>"

/-- introspect tuple (src/index.js lines 359-362). -/
def introspectTup (xs : List Value) : Except PErr String :=
  if xs.length > MAX_TUP_SIZE then .ok "Tuple<?>"
  else do
    let ts ← introspectList xs
    .ok ("Tuple<" ++ String.intercalate ", " ts ++ ">")

/-- introspect object (src/index.js lines 303-329). -/
def introspectObj (fs : List (String × Value)) (tag : String) : Except PErr String :=
  if tag = "Object" then
    if fs.length ≤ MAX_REC_SIZE then do
      let ts ← introspectFields fs
      let s := ts.foldl addToSet []
      match s with
      | [e] => .ok ("\x7bString: " ++ secondPart e ++ "\x7d")
      | _ => .ok ("\x7b" ++ String.intercalate ", " ts ++ "\x7d")
    else do
      let ts ← introspectFields fs
      let s := ts.foldl addToSet []
      match s with
      | [e] => .ok ("\x7bString: " ++ secondPart e ++ "\x7d")
      | _ => .ok "\x7b?\x7d"
  else .ok tag

end

/-! ### The global call history (src/index.js lines 55-70)

`setHistory` prepends (`unshift`) and drops the last entry (`pop`) past
`HISTORY_LEN`.  The guarded wrapper pushes `log.concat(record)` — an *array*
of strings — so each history entry is a list of formatted call records. -/

/-- set history (src/index.js lines 60-65). -/
def setHistory {α : Type} (s : α) (h : List α) : List α :=
  let h' := s :: h
  if h'.length > HISTORY_LEN then h'.dropLast else h'

/-- The global history after a chronological sequence of completed-call
records has been pushed, starting from the empty history the module
initialises (line 55). -/
def histAfter {α : Type} (rs : List α) : List α :=
  rs.foldl (fun h r => setHistory r h) []

/-! ### The guarded call wrapper (src/index.js lines 96-172, 368-421)

A wrapped function is a declared arity, a name and a body; the body may return
a plain value or another function (the curried case).  The proxy handler
`handleF` is embedded as `handleFApply`, a function from the call arguments
and the current global history to either a thrown error or the call's result
together with the new history. -/

mutual

inductive JFun where
  | mk (arity : Nat) (name : String) (body : List Value → JResult)

/-- The result of invoking an underlying function: a non-function value or a
function (which the wrapper turns into a curried continuation). -/
inductive JResult where
  | val (v : Value)
  | fn (g : JFun)

end

def JFun.arity : JFun → Nat
  | .mk a _ _ => a

def JFun.name : JFun → String
  | .mk _ n _ => n

def JFun.body : JFun → (List Value → JResult)
  | .mk _ _ b => b

/-- `introspect` of a call result: a function introspects to `"λ" + name`
(line 233); anything else is a plain value. -/
def introspectRes : JResult → Except PErr String
  | .val v => introspect v
  | .fn g => .ok ("λ" ++ g.name)

/-- The wrapper's arity mode: `"fix"` or `"var"` (lines 114-120). -/
inductive Params where
  | fix
  | var
deriving DecidableEq, Repr

/-- verify arity (src/index.js lines 385-405).  The thrown message renders
`ordinal(nthCall + 1)`; the error carries that 1-based number.  `g` is the
proxy target, i.e. the underlying function. -/
def verifyArity (g : JFun) (args : List Value) (name : String) (params : Params)
    (nthCall : Nat) (log : List String) : Except PErr Unit :=
  match params with
  | .fix =>
      if g.arity ≠ args.length then
        .error (.arity name g.arity args.length (nthCall + 1) false log)
      else .ok ()
  | .var =>
      if g.arity > args.length then
        .error (.arity name g.arity args.length (nthCall + 1) true log)
      else .ok ()

/-- The `args.map` callback of `verifyArgTypes` (lines 368-379): introspect
each argument in order and throw at the first invalid one.  The JS callback
body is an `if` statement without a `return`, so each element of the mapped
array is `undefined`, which `join` renders as the empty string — hence the
`""` collected per argument.  `nthArg` is the 0-based index of the current
argument; the error carries the 1-based numbers the message renders. -/
def mapCheck (name : String) (nthCall : Nat) (log : List String) :
    List Value → Nat → Except PErr (List String)
  | [], _ => .ok []
  | a :: rest, nthArg => do
      let t ← introspect a
      if INVALID_TYPES.contains t then
        .error (.argType name t (nthCall + 1) (nthArg + 1) log)
      else do
        let tl ← mapCheck name nthCall log rest (nthArg + 1)
        .ok ("" :: tl)

/-- verify argument types (src/index.js lines 368-379):
`args.map(...).join(", ")`. -/
def verifyArgTypes (args : List Value) (name : String) (nthCall : Nat)
    (log : List String) : Except PErr String := do
  let parts ← mapCheck name nthCall log args 0
  .ok (String.intercalate ", " parts)

/-- verify return type (src/index.js lines 411-421); returns the result's
descriptor. -/
def verifyRetType (r : JResult) (name : String) (log : List String) :
    Except PErr String := do
  let t ← introspectRes r
  if INVALID_TYPES.contains t then .error (.retType name t log)
  else .ok t

/-- What a guarded call returns: a raw non-function value, or a new guarded
proxy continuing the curried chain. -/
inductive CallRes where
  | value (v : Value)
  | wrapped (name : String) (g : JFun) (log : List String) (params : Params) (nthCall : Nat)

/-- The `apply` trap of `handleF` (src/index.js lines 134-162), as a function
of the call arguments and the current global history.  `r.name || name`
falls back to the wrapper's name when the returned function's name is the
(falsy) empty string. -/
def handleFApply (name : String) (f : JFun) (log : List String) (params : Params)
    (nthCall : Nat) (args : List Value) (hist : List (List String)) :
    Except PErr (CallRes × List (List String)) := do
  verifyArity f args name params nthCall log
  let argTypes ← verifyArgTypes args name nthCall log
  let r := f.body args
  let _ ← verifyRetType r name log
  match r with
  | .fn g =>
      let name' := if g.name = "" then name else g.name
      let log' := log ++ [name ++ "(" ++ argTypes ++ ")"]
      .ok (.wrapped name' g log' params (nthCall + 1), hist)
  | .val v =>
      .ok (.value v, setHistory (log ++ [name ++ "(" ++ argTypes ++ ")"]) hist)

/-- The per-wrapper state `$` threads into `handleF` (lines 114-120). -/
structure WrappedFn where
  name : String
  f : JFun
  log : List String
  params : Params
  nthCall : Nat

/-- What `$` returns: a guarded proxy, or (were `GUARDED` false) the raw
function. -/
inductive DollarRes where
  | proxy (w : WrappedFn)
  | raw (f : JFun)

/-- The function guard `$` (src/index.js lines 96-124).  A name starting with
`"..."` selects variadic mode, with the prefix stripped; otherwise fixed
mode.  The two argument-type checks on `name` and `f` hold by typing here. -/
def dollar (name : String) (f : JFun) : DollarRes :=
  if GUARDED then
    if name.startsWith "..." then .proxy ⟨name.drop 3, f, [], .var, 0⟩
    else .proxy ⟨name, f, [], .fix, 0⟩
  else .raw f

/-- Invoking a guarded proxy. -/
def applyWrapped (w : WrappedFn) (args : List Value) (hist : List (List String)) :
    Except PErr (CallRes × List (List String)) :=
  handleFApply w.name w.f w.log w.params w.nthCall args hist

/-! ### The overload registry (src/index.js lines 538-584)

The registry is a JS `Map` from dispatch keys to implementations, embedded as
an insertion-ordered association list.  Dispatch keys are strings (every
dispatcher in the library, including the default one, returns a string).  An
implementation is a function or a plain value.  Both members returned by
`overload` are `$`-guarded (lines 558 and 563): invoking either one goes
through the full `handleF` pipeline — arity check, argument-descriptor check,
invocation, return-descriptor check, curried-continuation wrapping, history
push — around the respective inner closure. -/

/-- A registered implementation.  The inner closure distinguishes function
implementations with `typeof r === "function"` and invokes them, so a
function implementation is represented by `fn` with its JS name (its
descriptor is `"λ" + name`) and its call semantics; `val` holds the
non-function implementation values. -/
inductive OImpl where
  | fn (name : String) (f : Value → JResult)
  | val (v : Value)

/-- The implementation as the JS value passed to the guarded `nameAdd` (its
descriptor is what `verifyArgTypes` sees). -/
def OImpl.toValue : OImpl → Value
  | .fn n _ => .fn n
  | .val v => v

/-- JS `Map.prototype.set`: overwrite in place if the key exists, else
append. -/
def mapSet : List (String × OImpl) → String → OImpl → List (String × OImpl)
  | [], k, v => [(k, v)]
  | (k', v') :: m, k, v =>
      if k' = k then (k, v) :: m else (k', v') :: mapSet m k v

/-- JS `Map.prototype.get` as an `Option`. -/
def mapGet : List (String × OImpl) → String → Option OImpl
  | [], _ => none
  | (k', v') :: m, k => if k' = k then some v' else mapGet m k

/-- The registry `Map` as the JS value `pairs.set(k, v)` evaluates to (the
map itself), as seen by `verifyRetType` after a registration. -/
def registryValue (pairs : List (String × OImpl)) : Value :=
  .map (pairs.map (fun p => (Value.str p.1, p.2.toValue)))

/-- The *inner* dispatch closure `x => {...}` (src/index.js lines 565-581):
`const r = pairs.get(dispatch(x))` yields JS `undefined` both for an absent
key and for a registered `undefined`, and `r === undefined` raises the
`OverloadError`; a function implementation is applied to `x`; any other
implementation is returned as is.  The error message embeds
`stringify(dispatch(x))` and `introspect(x)`.  This closure is never exposed
raw: the operation the caller holds is the guarded proxy `overloadCall`. -/
def overloadRun (name : String) (pairs : List (String × OImpl))
    (dispatch : Value → String) (x : Value) : Except PErr JResult :=
  let r := match mapGet pairs (dispatch x) with
    | none => OImpl.val Value.undef
    | some r => r
  match r with
  | .val .undef => do
      let d ← introspect x
      .error (.overloadE name (dispatch x) d)
  | .fn _ f => .ok (f x)
  | .val v => .ok (.val v)

/-- The `name` member `[name]: $(name, x => {...})` (src/index.js line 563):
a call of the guarded operation with the single argument `x`.  It replays the
`apply` trap of `handleF` (lines 134-162) around the inner closure — fixed
mode (the name carries no `"..."` prefix), fresh log, call index 0, declared
parameter count 1.  The shared `handleFApply` takes a total body, while the
inner closure can throw `OverloadError`, so the same steps are transcribed
here in the same order around `overloadRun`, reusing every check.
`verifyArity` reads only the proxy target's declared parameter count, so the
body field of the `JFun` passed to it is never consulted. -/
def overloadCall (name : String) (pairs : List (String × OImpl))
    (dispatch : Value → String) (x : Value) (hist : List (List String)) :
    Except PErr (CallRes × List (List String)) := do
  verifyArity (JFun.mk 1 name (fun _ => .val .undef)) [x] name .fix 0 []
  let argTypes ← verifyArgTypes [x] name 0 []
  let r ← overloadRun name pairs dispatch x
  let _ ← verifyRetType r name []
  match r with
  | .fn g =>
      .ok (.wrapped (if g.name = "" then name else g.name) g
        [name ++ "(" ++ argTypes ++ ")"] .fix 1, hist)
  | .val v =>
      .ok (.value v, setHistory [name ++ "(" ++ argTypes ++ ")"] hist)

/-- The `nameAdd` member `` [`${name}Add`]: $(`${name}Add`, (k, v) =>
pairs.set(k, v)) `` (src/index.js lines 558-561): a guarded call of the 2-ary
setter in fixed mode with a fresh log.  The argument-descriptor check rejects
any implementation whose descriptor is an invalid-type marker (`undefined`,
`NaN`, `Infinity`) before the registry is touched; the setter returns the map
itself, which `verifyRetType` then introspects.  (In JS a throw from that
final check would leave the mutation in place; no claim depends on the
registry state after a throwing registration, and the model reports only the
error in that case.) -/
def overloadAdd (name : String) (pairs : List (String × OImpl)) (k : String)
    (v : OImpl) (hist : List (List String)) :
    Except PErr (List (String × OImpl) × List (List String)) := do
  verifyArity (JFun.mk 2 (name ++ "Add") (fun _ => .val .undef)) [.str k, v.toValue]
    (name ++ "Add") .fix 0 []
  let argTypes ← verifyArgTypes [.str k, v.toValue] (name ++ "Add") 0 []
  let pairs' := mapSet pairs k v
  let _ ← verifyRetType (.val (registryValue pairs')) (name ++ "Add") []
  .ok (pairs', setHistory [(name ++ "Add") ++ "(" ++ argTypes ++ ")"] hist)

/-! ### replaceNestings (src/index.js lines 495-511)

`aux` repeatedly replaces innermost bracket groups (`/\[[^\[\]]*\]/g`,
`/\{[^{}}]*\}/g`, `/\<[^<>]*\>/g`) with `"_"` until a fixpoint.  The regexes
are embedded as direct character-list scans: a group is an opening bracket, a
run of characters that are neither bracket of the pair, and the closing
bracket. -/

/-- Scan for the closing bracket of a group: the suffix after the first
occurrence of `c`, failing if `o` or the end of the string intervenes. -/
def findClose (o c : Char) : List Char → Option (List Char)
  | [] => none
  | y :: ys => if y = c then some ys else if y = o then none else findClose o c ys

theorem findClose_length {o c : Char} : ∀ {l ys : List Char},
    findClose o c l = some ys → ys.length < l.length := by
  intro l
  induction l with
  | nil => intro ys h; simp [findClose] at h
  | cons y l ih =>
      intro ys h
      simp only [findClose] at h
      split at h
      · cases h; simp
      · split at h
        · cases h
        · exact Nat.lt_trans (ih h) (Nat.lt_succ_self _)

/-- One global replace of `o[^oc]*c` by `"_"`, scanning left to right. -/
def replRun (o c : Char) : List Char → List Char
  | [] => []
  | x :: xs =>
      if x = o then
        match h : findClose o c xs with
        | some ys => '_' :: replRun o c ys
        | none => x :: replRun o c xs
      else x :: replRun o c xs
termination_by l => l.length
decreasing_by
  · exact Nat.lt_trans (findClose_length h) (Nat.lt_succ_self _)
  · simp
  · simp

/-- The three chained replaces of `aux` (lines 499-501). -/
def replace3 (l : List Char) : List Char :=
  replRun '<' '>' (replRun '\x7b' '\x7d' (replRun '[' ']' l))

/-- The fixpoint loop `aux` (lines 498-505).  Every productive rewrite
strictly shrinks the string, so `length + 1` steps of fuel always reach the
fixpoint; the claims only evaluate this on concrete descriptors. -/
def auxNest : Nat → List Char → List Char
  | 0, s => s
  | fuel + 1, s =>
      let t := replace3 s
      if t = s then t else auxNest fuel t

/-- replace nestings (src/index.js lines 495-511).
`s.match(/^[\[{<]|[\]}>]$/g)` collects a leading opening bracket and a
trailing closing bracket, in order; with no match it returns `null` and
`xs.length` throws (`none` here — unreachable from `Arr`, whose descriptors
are bracketed).  The `xs.length === 0` branch is dead in JS (`match` yields
`null`, never `[]`).  Otherwise the result is
`` `${xs[0]}${aux(s.slice(1, -1))}${xs[1]}` ``, where a missing `xs[1]`
renders as `"undefined"`. -/
def replaceNestings (s : String) : Option String :=
  let cs := s.data
  let openM : Option Char := match cs.head? with
    | some c => if c = '[' ∨ c = '\x7b' ∨ c = '<' then some c else none
    | none => none
  let closeM : Option Char := match cs.getLast? with
    | some c => if c = ']' ∨ c = '\x7d' ∨ c = '>' then some c else none
    | none => none
  match openM.toList ++ closeM.toList with
  | [] => none
  | first :: rest =>
      let inner := (cs.drop 1).dropLast
      let mid := auxNest (inner.length + 1) inner
      let second := match rest with
        | c :: _ => String.mk [c]
        | [] => "undefined"
      some (String.mk [first] ++ String.mk mid ++ second)

/-! ### The homogeneous array proxy (src/index.js lines 1565-1653) -/

/-- `replaceNestings(t).search(/\?|,/) !== -1`. -/
def containsHeteroMark (s : String) : Bool :=
  s.data.any (fun c => c = '?' || c = ',')

/-- `mode: "set"` stores with `xs[i] = d.value`; `mode: "def"` with
`Reflect.defineProperty` — for a plain value descriptor both store the
value. -/
inductive SetMode where
  | setM
  | defM
deriving DecidableEq, Repr

/-- `xs[i] = v` for `i ≤ xs.length`: overwrite, or append when
`i = xs.length`. -/
def storeAt (xs : List Value) (i : Nat) (v : Value) : List Value :=
  if i < xs.length then xs.set i v else xs ++ [v]

/-- set array (src/index.js lines 1631-1653).  The proxy trap receives the
index as a string key; `String(Number(i)) === i` holds for every canonical
numeric index, so the checked branch always applies here (non-numeric keys,
which skip the checks, are outside the claims).  The source checks the gap
first, then the element descriptor; the heterogeneity message recomputes
`introspect(xs)` and `introspect(d.value)`. -/
def setArr (xs : List Value) (i : Nat) (v : Value) (t : String) (mode : SetMode) :
    Except PErr (List Value) :=
  if i > xs.length then .error (.typeGap i)
  else do
    let tv ← introspect v
    if ("[" ++ tv ++ "]") ≠ t then do
      let txs ← introspect (.arr xs)
      let tv2 ← introspect v
      .error (.typeHetero txs tv2)
    else
      match mode with
      | .setM => .ok (storeAt xs i v)
      | .defM => .ok (storeAt xs i v)

/-- homogeneous array constructor (src/index.js lines 1567-1591), returning
the proxied array together with the fixed descriptor `t` baked into
`handleArr t`.  `GUARDED` is true and `Array.isArray` holds by typing.  The
`none` case of `replaceNestings` is the JS crash on `null.length`
(unreachable: array descriptors are bracketed). -/
def Arr (xs : List Value) : Except PErr (List Value × String) := do
  let t ← introspect (.arr xs)
  match replaceNestings t with
  | none => .error .typeNullMatch
  | some rn =>
      if containsHeteroMark rn then do
        let t2 ← introspect (.arr xs)
        .error (.argTypeHetero "Arr" t2)
      else .ok (xs, t)

/-! ## Helper lemmas -/

theorem string_append_data (a b : String) : (a ++ b).data = a.data ++ b.data := by
  cases a; cases b; rfl

/-- A function descriptor `"λ" + name` is never one of the invalid-type
markers (they start with `'U'`, `'N'`, `'I'`). -/
theorem lambda_not_invalid (n : String) :
    INVALID_TYPES.contains ("λ" ++ n) = false := by
  have hd : ("λ" ++ n).data = 'λ' :: n.data := by cases n; rfl
  have hne : ∀ s : String, s.data.head? = some 'U' ∨ s.data.head? = some 'N' ∨
      s.data.head? = some 'I' → ("λ" ++ n) ≠ s := by
    intro s hs heq
    have := congrArg (fun t => t.data.head?) heq
    simp only [hd, List.head?_cons] at this
    rcases hs with h | h | h <;> rw [h] at this <;> simp at this
  have h1 := hne "Undefined" (by left; decide)
  have h2 := hne "NaN" (by right; left; decide)
  have h3 := hne "Infinity" (by right; right; decide)
  simp [INVALID_TYPES, h1, h2, h3]

theorem take_append_take {α : Type} (a b : List α) (n : Nat) :
    (a ++ b.take n).take n = (a ++ b).take n := by
  rw [List.take_append_eq_append_take, List.take_append_eq_append_take, List.take_take,
    Nat.min_eq_left (Nat.sub_le n a.length)]

theorem setHistory_eq_take {α : Type} (s : α) (h : List α) (hle : h.length ≤ HISTORY_LEN) :
    setHistory s h = (s :: h).take HISTORY_LEN := by
  simp only [setHistory]
  split
  · rename_i hgt
    have hlen : h.length = HISTORY_LEN := by
      simp only [List.length_cons] at hgt; omega
    rw [List.dropLast_eq_take]
    simp [hlen]
  · rename_i hng
    rw [List.take_of_length_le]
    simp only [List.length_cons] at hng ⊢
    omega

theorem histFold_general {α : Type} (rs : List α) : ∀ (h : List α),
    h.length ≤ HISTORY_LEN →
    rs.foldl (fun acc r => setHistory r acc) h = (rs.reverse ++ h).take HISTORY_LEN := by
  induction rs with
  | nil =>
      intro h hle
      simp only [List.foldl_nil, List.reverse_nil, List.nil_append]
      exact (List.take_of_length_le hle).symm
  | cons r rs ih =>
      intro h hle
      have hlen : (setHistory r h).length ≤ HISTORY_LEN := by
        rw [setHistory_eq_take _ _ hle]
        simp [List.length_take]
      simp only [List.foldl_cons, List.reverse_cons]
      rw [ih (setHistory r h) hlen, setHistory_eq_take _ _ hle, take_append_take]
      simp [List.append_assoc]

/-! ## C8 — Call History ring buffer -/

/-- C8: after any sequence of completed guarded calls pushing records
`rs` (in chronological order) into the module-initial empty history via
`setHistory`, the history is exactly the most-recent-first reversal of `rs`
truncated to the 10 most recent entries; in particular it never holds more
than 10 entries, each new record is inserted at the front, and once 10
entries are held each insertion discards the oldest. -/
theorem callHistory_ring_buffer (rs : List (List String)) :
    histAfter rs = rs.reverse.take HISTORY_LEN ∧
    (histAfter rs).length ≤ HISTORY_LEN := by
  have h := histFold_general rs [] (by simp [HISTORY_LEN])
  simp only [List.append_nil] at h
  have heq : histAfter rs = rs.reverse.take HISTORY_LEN := h
  exact ⟨heq, by rw [heq]; simp [List.length_take]⟩

/-! ## C3 — Arity checking -/

/-- C3: on a guarded call in fixed mode, if the underlying function's
declared parameter count differs from the number of supplied arguments the
call raises an `ArityError` (carrying the expected and actual counts and the
1-based call index); in variadic mode the same happens whenever fewer
arguments than the declared count are supplied.  The resulting error is the
same for every possible body of the underlying function — the equations hold
with the body universally quantified — so the underlying function is never
invoked. -/
theorem guard_arity_check :
    (∀ (name : String) (f : JFun) (log : List String) (nthCall : Nat)
       (args : List Value) (hist : List (List String)),
       f.arity ≠ args.length →
       handleFApply name f log .fix nthCall args hist =
         .error (.arity name f.arity args.length (nthCall + 1) false log)) ∧
    (∀ (name : String) (f : JFun) (log : List String) (nthCall : Nat)
       (args : List Value) (hist : List (List String)),
       args.length < f.arity →
       handleFApply name f log .var nthCall args hist =
         .error (.arity name f.arity args.length (nthCall + 1) true log)) := by
  constructor
  · intro name f log nthCall args hist hne
    simp [handleFApply, verifyArity, hne, Except.bind, Bind.bind]
  · intro name f log nthCall args hist hlt
    simp [handleFApply, verifyArity, Nat.lt_iff_add_one_le, hlt, Except.bind, Bind.bind]

/-- Witness for C3 at concrete inputs: a 2-ary function called with one
argument raises `ArityError` in both modes. -/
theorem guard_arity_check_witness :
    handleFApply "f" (JFun.mk 2 "f" (fun _ => .val (.num (.finite 0)))) [] .fix 0
        [.num (.finite 1)] [] =
      .error (.arity "f" 2 1 1 false []) ∧
    handleFApply "g" (JFun.mk 2 "g" (fun _ => .val (.num (.finite 0)))) [] .var 0
        [.num (.finite 1)] [] =
      .error (.arity "g" 2 1 1 true []) :=
  ⟨guard_arity_check.1 "f" (JFun.mk 2 "f" (fun _ => .val (.num (.finite 0)))) [] 0
      [.num (.finite 1)] [] (by decide),
   guard_arity_check.2 "g" (JFun.mk 2 "g" (fun _ => .val (.num (.finite 0)))) [] 0
      [.num (.finite 1)] [] (by decide)⟩

/-! ## The argument-check pipeline -/

theorem mapCheck_invalid (name : String) (nthCall : Nat) (log : List String) :
    ∀ (pre : List Value) (a : Value) (post : List Value) (n : Nat) (ta : String),
    (∀ b ∈ pre, ∃ t, introspect b = .ok t ∧ INVALID_TYPES.contains t = false) →
    introspect a = .ok ta → INVALID_TYPES.contains ta = true →
    mapCheck name nthCall log (pre ++ a :: post) n =
      .error (.argType name ta (nthCall + 1) (n + pre.length + 1) log) := by
  intro pre
  induction pre with
  | nil =>
      intro a post n ta _ ha hta
      simp only [List.nil_append, mapCheck, ha, hta, Except.bind, Bind.bind]
      simp
  | cons b pre ih =>
      intro a post n ta hpre ha hta
      obtain ⟨tb, htb, htbv⟩ := hpre b (by simp)
      have hrest := ih a post (n + 1) ta (fun c hc => hpre c (by simp [hc])) ha hta
      have harith : n + 1 + pre.length + 1 = n + (b :: pre).length + 1 := by
        simp; omega
      rw [harith] at hrest
      simp only [List.cons_append, mapCheck, htb, htbv, Except.bind, Bind.bind,
        List.append_eq]
      rw [hrest]
      simp

theorem mapCheck_ok (name : String) (nthCall : Nat) (log : List String) :
    ∀ (args : List Value) (n : Nat),
    (∀ b ∈ args, ∃ t, introspect b = .ok t ∧ INVALID_TYPES.contains t = false) →
    ∃ s, mapCheck name nthCall log args n = .ok s := by
  intro args
  induction args with
  | nil => intro n _; exact ⟨[], rfl⟩
  | cons b args ih =>
      intro n hall
      obtain ⟨tb, htb, htbv⟩ := hall b (by simp)
      obtain ⟨s, hs⟩ := ih (n + 1) (fun c hc => hall c (by simp [hc]))
      refine ⟨"" :: s, ?_⟩
      simp only [mapCheck, htb, htbv, hs, Except.bind, Bind.bind]
      simp

theorem verifyArgTypes_ok (args : List Value) (name : String) (nthCall : Nat)
    (log : List String)
    (h : ∀ b ∈ args, ∃ t, introspect b = .ok t ∧ INVALID_TYPES.contains t = false) :
    ∃ s, verifyArgTypes args name nthCall log = .ok s := by
  obtain ⟨parts, hp⟩ := mapCheck_ok name nthCall log args 0 h
  exact ⟨String.intercalate ", " parts, by simp [verifyArgTypes, hp, Except.bind, Bind.bind]⟩

/-! ## C2 — Invalid-marker checking -/

/-- C2: on a guarded call that passes the arity check, if an argument's
descriptor is one of the invalid-type markers (`"Undefined"`, `"NaN"`,
`"Infinity"`) — and every argument before it is unobjectionable — the call
raises an `ArgTypeError` carrying that argument's 1-based position (the
source throws at the first invalid argument); if all arguments pass and the
result's descriptor is an invalid-type marker the call raises a
`ReturnTypeError`. -/
theorem guard_invalid_type_markers :
    (∀ (name : String) (f : JFun) (log : List String) (params : Params)
       (nthCall : Nat) (args : List Value) (hist : List (List String))
       (pre : List Value) (a : Value) (post : List Value) (ta : String),
       verifyArity f args name params nthCall log = .ok () →
       args = pre ++ a :: post →
       (∀ b ∈ pre, ∃ t, introspect b = .ok t ∧ INVALID_TYPES.contains t = false) →
       introspect a = .ok ta →
       INVALID_TYPES.contains ta = true →
       handleFApply name f log params nthCall args hist =
         .error (.argType name ta (nthCall + 1) (pre.length + 1) log)) ∧
    (∀ (name : String) (f : JFun) (log : List String) (params : Params)
       (nthCall : Nat) (args : List Value) (hist : List (List String)) (tr : String),
       verifyArity f args name params nthCall log = .ok () →
       (∀ b ∈ args, ∃ t, introspect b = .ok t ∧ INVALID_TYPES.contains t = false) →
       introspectRes (f.body args) = .ok tr →
       INVALID_TYPES.contains tr = true →
       handleFApply name f log params nthCall args hist = .error (.retType name tr log)) := by
  constructor
  · intro name f log params nthCall args hist pre a post ta hva hargs hpre ha hta
    subst hargs
    have hmc := mapCheck_invalid name nthCall log pre a post 0 ta hpre ha hta
    simp only [Nat.zero_add] at hmc
    simp only [handleFApply, hva, verifyArgTypes, hmc, Except.bind, Bind.bind]
  · intro name f log params nthCall args hist tr hva hargs hres htr
    obtain ⟨s, hs⟩ := verifyArgTypes_ok args name nthCall log hargs
    simp only [handleFApply, hva, hs, verifyRetType, hres, htr, Except.bind, Bind.bind]
    all_goals simp

/-- Witness for C2: a call with `NaN` as its only argument raises
`ArgTypeError` at position 1; a call whose underlying function returns
`undefined` raises `ReturnTypeError`. -/
theorem guard_invalid_type_markers_witness :
    handleFApply "f" (JFun.mk 1 "f" (fun _ => .val (.num (.finite 0)))) [] .fix 0
        [.num .nan] [] =
      .error (.argType "f" "NaN" 1 1 []) ∧
    handleFApply "g" (JFun.mk 1 "g" (fun _ => .val .undef)) [] .fix 0
        [.num (.finite 3)] [] =
      .error (.retType "g" "Undefined" []) :=
  ⟨guard_invalid_type_markers.1 "f" (JFun.mk 1 "f" (fun _ => .val (.num (.finite 0))))
      [] .fix 0 [.num .nan] [] [] (.num .nan) [] "NaN" rfl rfl (by simp)
      (by simp [introspect]) (by decide),
   guard_invalid_type_markers.2 "g" (JFun.mk 1 "g" (fun _ => .val .undef)) [] .fix 0
      [.num (.finite 3)] [] "Undefined" rfl
      (by intro b hb
          simp only [List.mem_singleton] at hb
          subst hb
          exact ⟨"Number", by simp [introspect], by decide⟩)
      (by simp [introspectRes, JFun.body, introspect]) (by decide)⟩

/-! ## C1 — Guard transparency -/

/-- C1: a function wrapped as `$(name, f)` in fixed mode (a name not starting
with `"..."`), called with exactly as many arguments as `f`'s declared
parameter count, all of whose descriptors are valid (none of `"Undefined"`,
`"NaN"`, `"Infinity"`), and for which `f(...args)` is a non-function value
with a valid descriptor, raises no error and returns exactly `f(...args)`. -/
theorem guard_transparency (name : String) (f : JFun) (args : List Value)
    (hist : List (List String)) (v : Value) (tv : String)
    (hmode : ¬ name.startsWith "...")
    (hlen : f.arity = args.length)
    (hargs : ∀ a ∈ args, ∃ t, introspect a = .ok t ∧ INVALID_TYPES.contains t = false)
    (hres : f.body args = .val v)
    (hret : introspect v = .ok tv)
    (hretv : INVALID_TYPES.contains tv = false) :
    dollar name f = .proxy ⟨name, f, [], .fix, 0⟩ ∧
    ∃ hist', applyWrapped ⟨name, f, [], .fix, 0⟩ args hist = .ok (.value v, hist') := by
  constructor
  · simp [dollar, GUARDED, hmode]
  · obtain ⟨s, hs⟩ := verifyArgTypes_ok args name 0 [] hargs
    refine ⟨setHistory [name ++ "(" ++ s ++ ")"] hist, ?_⟩
    simp only [applyWrapped, handleFApply, verifyArity, hlen, hs, hres, verifyRetType,
      introspectRes, hret, hretv, Except.bind, Bind.bind]
    simp

/-- Witness for C1: the guarded identity-like function of arity 1 applied to
a finite number returns that function's result unchanged. -/
theorem guard_transparency_witness :
    dollar "f" (JFun.mk 1 "f" (fun _ => .val (.num (.finite 7)))) =
      .proxy ⟨"f", JFun.mk 1 "f" (fun _ => .val (.num (.finite 7))), [], .fix, 0⟩ ∧
    ∃ hist', applyWrapped ⟨"f", JFun.mk 1 "f" (fun _ => .val (.num (.finite 7))), [], .fix, 0⟩
        [.num (.finite 3)] [] = .ok (.value (.num (.finite 7)), hist') :=
  guard_transparency "f" (JFun.mk 1 "f" (fun _ => .val (.num (.finite 7))))
    [.num (.finite 3)] [] (.num (.finite 7)) "Number"
    (by decide) rfl
    (by intro a ha
        simp only [List.mem_singleton] at ha
        subst ha
        exact ⟨"Number", by simp [introspect], by decide⟩)
    rfl (by simp [introspect]) (by decide)

/-! ## C7 — Curried continuation -/

/-- C7: a guarded call whose checks pass and whose result is itself a
function returns a new guarded wrapper — named after the result (or the
wrapper, when the result's name is empty), carrying the log extended with
this step's formatted record and an incremented call index — and leaves the
global Call History exactly unchanged; a successful guarded call changes the
Call History only when its result is a non-function value, in which case the
new record is pushed with `setHistory`. -/
theorem guard_curry_continuation :
    (∀ (name : String) (f : JFun) (log : List String) (params : Params)
       (nthCall : Nat) (args : List Value) (hist : List (List String))
       (g : JFun) (argTypes : String),
       verifyArity f args name params nthCall log = .ok () →
       verifyArgTypes args name nthCall log = .ok argTypes →
       f.body args = .fn g →
       handleFApply name f log params nthCall args hist =
         .ok (.wrapped (if g.name = "" then name else g.name) g
              (log ++ [name ++ "(" ++ argTypes ++ ")"]) params (nthCall + 1), hist)) ∧
    (∀ (name : String) (f : JFun) (log : List String) (params : Params)
       (nthCall : Nat) (args : List Value) (hist : List (List String))
       (n2 : String) (g2 : JFun) (l2 : List String) (p2 : Params) (c2 : Nat)
       (hist' : List (List String)),
       handleFApply name f log params nthCall args hist =
         .ok (.wrapped n2 g2 l2 p2 c2, hist') → hist' = hist) ∧
    (∀ (name : String) (f : JFun) (log : List String) (params : Params)
       (nthCall : Nat) (args : List Value) (hist : List (List String))
       (v : Value) (hist' : List (List String)),
       handleFApply name f log params nthCall args hist = .ok (.value v, hist') →
       ∃ argTypes, verifyArgTypes args name nthCall log = .ok argTypes ∧
         hist' = setHistory (log ++ [name ++ "(" ++ argTypes ++ ")"]) hist) := by
  refine ⟨?_, ?_, ?_⟩
  · intro name f log params nthCall args hist g argTypes hva hvat hb
    simp only [handleFApply, hva, hvat, hb, verifyRetType, introspectRes,
      lambda_not_invalid, Except.bind, Bind.bind]
    simp
  · intro name f log params nthCall args hist n2 g2 l2 p2 c2 hist' h
    cases hva : verifyArity f args name params nthCall log with
    | error e => simp [handleFApply, hva, Except.bind, Bind.bind] at h
    | ok u =>
        cases hvat : verifyArgTypes args name nthCall log with
        | error e => simp [handleFApply, hva, hvat, Except.bind, Bind.bind] at h
        | ok s =>
            cases hrt : verifyRetType (f.body args) name log with
            | error e => simp [handleFApply, hva, hvat, hrt, Except.bind, Bind.bind] at h
            | ok t =>
                cases hb : f.body args with
                | fn g =>
                    rw [hb] at hrt
                    simp only [handleFApply, hva, hvat, hb, hrt, Except.bind, Bind.bind,
                      Except.ok.injEq, Prod.mk.injEq] at h
                    exact h.2.symm
                | val v =>
                    rw [hb] at hrt
                    simp [handleFApply, hva, hvat, hb, hrt, Except.bind, Bind.bind] at h
  · intro name f log params nthCall args hist v hist' h
    cases hva : verifyArity f args name params nthCall log with
    | error e => simp [handleFApply, hva, Except.bind, Bind.bind] at h
    | ok u =>
        cases hvat : verifyArgTypes args name nthCall log with
        | error e => simp [handleFApply, hva, hvat, Except.bind, Bind.bind] at h
        | ok s =>
            cases hrt : verifyRetType (f.body args) name log with
            | error e => simp [handleFApply, hva, hvat, hrt, Except.bind, Bind.bind] at h
            | ok t =>
                cases hb : f.body args with
                | fn g =>
                    rw [hb] at hrt
                    simp [handleFApply, hva, hvat, hb, hrt, Except.bind, Bind.bind] at h
                | val w =>
                    rw [hb] at hrt
                    simp only [handleFApply, hva, hvat, hb, hrt, Except.bind, Bind.bind,
                      Except.ok.injEq, Prod.mk.injEq] at h
                    exact ⟨s, rfl, h.2.symm⟩

/-- Witness for C7 at concrete inputs: a guarded call returning a function
yields the new wrapper (inheriting the name, extending the log, incrementing
the call index) and leaves the history untouched; a guarded call returning a
plain value pushes its record with `setHistory`. -/
theorem guard_curry_continuation_witness :
    handleFApply "f"
        (JFun.mk 1 "f" (fun _ => .fn (JFun.mk 1 "" (fun _ => .val (.num (.finite 5))))))
        [] .fix 0 [.num (.finite 3)] [] =
      .ok (.wrapped "f" (JFun.mk 1 "" (fun _ => .val (.num (.finite 5)))) ["f()"]
        .fix 1, []) ∧
    (∃ argTypes, verifyArgTypes [.num (.finite 3)] "h" 0 [] = .ok argTypes ∧
      [["h()"]] = setHistory ([] ++ ["h" ++ "(" ++ argTypes ++ ")"]) []) :=
  ⟨guard_curry_continuation.1 "f"
      (JFun.mk 1 "f" (fun _ => .fn (JFun.mk 1 "" (fun _ => .val (.num (.finite 5))))))
      [] .fix 0 [.num (.finite 3)] [] (JFun.mk 1 "" (fun _ => .val (.num (.finite 5))))
      "" rfl
      (by simp [verifyArgTypes, mapCheck, introspect, Except.bind, Bind.bind] <;> rfl)
      rfl,
   guard_curry_continuation.2.2 "h" (JFun.mk 1 "h" (fun _ => .val (.num (.finite 7))))
      [] .fix 0 [.num (.finite 3)] [] (.num (.finite 7)) [["h()"]]
      (by simp [handleFApply, verifyArity, verifyArgTypes, mapCheck, verifyRetType,
        introspectRes, introspect, setHistory, HISTORY_LEN, INVALID_TYPES,
        JFun.arity, JFun.name, JFun.body, Except.bind, Bind.bind] <;> rfl)⟩

/-! ## C6 — Overload dispatch -/

theorem mapGet_mapSet (m : List (String × OImpl)) (k : String) (v : OImpl) :
    mapGet (mapSet m k v) k = some v := by
  induction m with
  | nil => simp [mapSet, mapGet]
  | cons p m ih =>
      obtain ⟨k', v'⟩ := p
      by_cases h : k' = k
      · subst h; simp [mapSet, mapGet]
      · simp [mapSet, mapGet, h, ih]

theorem verifyArity_unary (name : String) (x : Value) (body : List Value → JResult) :
    verifyArity (JFun.mk 1 name body) [x] name .fix 0 [] = .ok () := by
  simp [verifyArity, JFun.arity]

theorem verifyArity_binary (name : String) (a b : Value) (body : List Value → JResult) :
    verifyArity (JFun.mk 2 name body) [a, b] name .fix 0 [] = .ok () := by
  simp [verifyArity, JFun.arity]

/-- A unary guarded call's `argTypes` string: one argument contributes the
`undefined` the JS map callback returns, rendered as `""` by `join`. -/
theorem verifyArgTypes_single (x : Value) (name : String) (t : String)
    (hx : introspect x = .ok t) (ht : INVALID_TYPES.contains t = false) :
    verifyArgTypes [x] name 0 [] = .ok "" := by
  simp only [verifyArgTypes, mapCheck, hx, ht, Except.bind, Bind.bind]
  rfl

/-- A binary guarded call's `argTypes` string is `", "`. -/
theorem verifyArgTypes_pair (a b : Value) (name : String) (ta tb : String)
    (ha : introspect a = .ok ta) (hta : INVALID_TYPES.contains ta = false)
    (hb : introspect b = .ok tb) (htb : INVALID_TYPES.contains tb = false) :
    verifyArgTypes [a, b] name 0 [] = .ok ", " := by
  simp only [verifyArgTypes, mapCheck, ha, hta, hb, htb, Except.bind, Bind.bind]
  rfl

/-- C6 (amended): the operation returned by `overload(name, dispatch)` is the
`$`-guarded proxy around the inner dispatch closure, so invoking it with `x`
first runs the guard's argument check — an invalid-descriptor argument raises
`ArgTypeError` before any dispatch.  Otherwise `key = dispatch(x)` is looked
up in the operation's private map: an unregistered key raises an
`OverloadError` naming the operation, the key and the argument's descriptor; a
registered function implementation is applied to `x` and a registered
non-function implementation stands itself, but in both cases the outcome then
passes the guard's return check — a result with an invalid descriptor raises
`ReturnTypeError` instead of being returned, and a function result is
returned as a new guarded continuation wrapper rather than raw.  Registration
through the guarded `nameAdd` rejects an implementation whose descriptor is
invalid (such as `undefined`) with `ArgTypeError`; a successful registration
stores with `pairs.set`, and when the same key is registered twice the later
registration is the one found. -/
theorem overload_dispatch :
    (∀ (name : String) (pairs : List (String × OImpl)) (dispatch : Value → String)
       (x : Value) (hist : List (List String)) (tx : String),
       introspect x = .ok tx → INVALID_TYPES.contains tx = true →
       overloadCall name pairs dispatch x hist = .error (.argType name tx 1 1 [])) ∧
    (∀ (name : String) (pairs : List (String × OImpl)) (dispatch : Value → String)
       (x : Value) (hist : List (List String)) (d : String),
       introspect x = .ok d → INVALID_TYPES.contains d = false →
       mapGet pairs (dispatch x) = none →
       overloadCall name pairs dispatch x hist =
         .error (.overloadE name (dispatch x) d)) ∧
    (∀ (name : String) (pairs : List (String × OImpl)) (dispatch : Value → String)
       (x : Value) (hist : List (List String)) (fname : String)
       (f : Value → JResult) (v : Value) (tx tv : String),
       introspect x = .ok tx → INVALID_TYPES.contains tx = false →
       mapGet pairs (dispatch x) = some (.fn fname f) →
       f x = .val v →
       introspect v = .ok tv → INVALID_TYPES.contains tv = false →
       overloadCall name pairs dispatch x hist =
         .ok (.value v, setHistory [name ++ "(" ++ "" ++ ")"] hist)) ∧
    (∀ (name : String) (pairs : List (String × OImpl)) (dispatch : Value → String)
       (x : Value) (hist : List (List String)) (fname : String)
       (f : Value → JResult) (v : Value) (tx tv : String),
       introspect x = .ok tx → INVALID_TYPES.contains tx = false →
       mapGet pairs (dispatch x) = some (.fn fname f) →
       f x = .val v →
       introspect v = .ok tv → INVALID_TYPES.contains tv = true →
       overloadCall name pairs dispatch x hist = .error (.retType name tv [])) ∧
    (∀ (name : String) (pairs : List (String × OImpl)) (dispatch : Value → String)
       (x : Value) (hist : List (List String)) (fname : String)
       (f : Value → JResult) (g : JFun) (tx : String),
       introspect x = .ok tx → INVALID_TYPES.contains tx = false →
       mapGet pairs (dispatch x) = some (.fn fname f) →
       f x = .fn g →
       overloadCall name pairs dispatch x hist =
         .ok (.wrapped (if g.name = "" then name else g.name) g
           [name ++ "(" ++ "" ++ ")"] .fix 1, hist)) ∧
    (∀ (name : String) (pairs : List (String × OImpl)) (dispatch : Value → String)
       (x : Value) (hist : List (List String)) (v : Value) (tx tv : String),
       introspect x = .ok tx → INVALID_TYPES.contains tx = false →
       mapGet pairs (dispatch x) = some (.val v) → v ≠ .undef →
       (∀ n, v ≠ .fn n) →
       introspect v = .ok tv → INVALID_TYPES.contains tv = false →
       overloadCall name pairs dispatch x hist =
         .ok (.value v, setHistory [name ++ "(" ++ "" ++ ")"] hist)) ∧
    (∀ (name : String) (pairs : List (String × OImpl)) (k : String)
       (hist : List (List String)),
       overloadAdd name pairs k (OImpl.val .undef) hist =
         .error (.argType (name ++ "Add") "Undefined" 1 2 [])) ∧
    (∀ (name : String) (pairs : List (String × OImpl)) (k : String) (v : OImpl)
       (hist : List (List String)) (tv tm : String),
       introspect v.toValue = .ok tv → INVALID_TYPES.contains tv = false →
       introspect (registryValue (mapSet pairs k v)) = .ok tm →
       INVALID_TYPES.contains tm = false →
       overloadAdd name pairs k v hist =
         .ok (mapSet pairs k v,
           setHistory [(name ++ "Add") ++ "(" ++ ", " ++ ")"] hist)) ∧
    (∀ (m : List (String × OImpl)) (k : String) (v₁ v₂ : OImpl),
       mapGet (mapSet (mapSet m k v₁) k v₂) k = some v₂) := by
  refine ⟨?_, ?_, ?_, ?_, ?_, ?_, ?_, ?_, ?_⟩
  · intro name pairs dispatch x hist tx hx htx
    have hmc := mapCheck_invalid name 0 [] [] x [] 0 tx (by simp) hx htx
    simp only [List.nil_append, List.length_nil, Nat.zero_add] at hmc
    simp only [overloadCall, verifyArity_unary, verifyArgTypes, hmc, Except.bind,
      Bind.bind]
  · intro name pairs dispatch x hist d hx hd hget
    have hs := verifyArgTypes_single x name d hx hd
    simp only [overloadCall, verifyArity_unary, hs, overloadRun, hget, hx,
      Except.bind, Bind.bind]
  · intro name pairs dispatch x hist fname f v tx tv hx htx hget hf hv htv
    have hs := verifyArgTypes_single x name tx hx htx
    simp only [overloadCall, verifyArity_unary, hs, overloadRun, hget, hf,
      verifyRetType, introspectRes, hv, htv, Except.bind, Bind.bind]
    simp
  · intro name pairs dispatch x hist fname f v tx tv hx htx hget hf hv htv
    have hs := verifyArgTypes_single x name tx hx htx
    simp only [overloadCall, verifyArity_unary, hs, overloadRun, hget, hf,
      verifyRetType, introspectRes, hv, htv, Except.bind, Bind.bind]
    simp
  · intro name pairs dispatch x hist fname f g tx hx htx hget hf
    have hs := verifyArgTypes_single x name tx hx htx
    simp only [overloadCall, verifyArity_unary, hs, overloadRun, hget, hf,
      verifyRetType, introspectRes, lambda_not_invalid, Except.bind, Bind.bind]
    simp
  · intro name pairs dispatch x hist v tx tv hx htx hget hv hvfn hiv htv
    have hs := verifyArgTypes_single x name tx hx htx
    simp only [overloadCall, verifyArity_unary, hs, overloadRun, hget,
      verifyRetType, introspectRes, hiv, htv, Except.bind, Bind.bind]
    simp
  · intro name pairs k hist
    have hk : introspect (Value.str k) = .ok "String" := by simp [introspect]
    have hku : INVALID_TYPES.contains "String" = false := by decide
    have hu : introspect Value.undef = .ok "Undefined" := by simp [introspect]
    have huv : INVALID_TYPES.contains "Undefined" = true := by decide
    have hmc := mapCheck_invalid (name ++ "Add") 0 [] [Value.str k] Value.undef [] 0
      "Undefined"
      (by intro b hb
          simp only [List.mem_singleton] at hb
          subst hb
          exact ⟨"String", hk, hku⟩)
      hu huv
    simp only [List.singleton_append, List.length_singleton, Nat.zero_add] at hmc
    simp only [overloadAdd, OImpl.toValue, verifyArity_binary, verifyArgTypes, hmc,
      Except.bind, Bind.bind]
  · intro name pairs k v hist tv tm hv htv hm htm
    have hk : introspect (Value.str k) = .ok "String" := by simp [introspect]
    have hku : INVALID_TYPES.contains "String" = false := by decide
    have hs := verifyArgTypes_pair (Value.str k) v.toValue (name ++ "Add")
      "String" tv hk hku hv htv
    simp only [overloadAdd, verifyArity_binary, hs, verifyRetType, introspectRes,
      hm, htm, Except.bind, Bind.bind]
    simp
  · intro m k v₁ v₂
    exact mapGet_mapSet (mapSet m k v₁) k v₂

/-- Counterexample to C6 as stated, at registry states reachable through the
guarded `nameAdd` (both registered implementations are functions, whose
descriptors are valid): the guard wrapped around the operation intervenes.
With nothing registered, calling the operation with `NaN` raises
`ArgTypeError`, not the `OverloadError` the claim requires for an
unregistered key; a registered function returning `undefined` makes the call
raise `ReturnTypeError` instead of returning `f(x)`; and a registered
function returning a function makes the call return a new guarded
continuation wrapper, not `f(x)` itself. -/
theorem overload_dispatch_counterexample :
    overloadCall "app" [] (fun _ => "Number") (.num .nan) [] =
      .error (.argType "app" "NaN" 1 1 []) ∧
    overloadCall "app" [("Number", OImpl.fn "f" (fun _ => .val .undef))]
      (fun _ => "Number") (.num (.finite 1)) [] =
      .error (.retType "app" "Undefined" []) ∧
    overloadCall "app"
      [("Number", OImpl.fn "f"
        (fun _ => .fn (JFun.mk 1 "g" (fun _ => .val (.num (.finite 2))))))]
      (fun _ => "Number") (.num (.finite 1)) [] =
      .ok (.wrapped "g" (JFun.mk 1 "g" (fun _ => .val (.num (.finite 2))))
        ["app()"] .fix 1, []) := by
  refine ⟨?_, ?_, ?_⟩
  · simp [overloadCall, overloadRun, verifyArity, verifyArgTypes, mapCheck,
      verifyRetType, introspectRes, introspect, mapGet, INVALID_TYPES,
      JFun.arity, JFun.name, JFun.body, Except.bind, Bind.bind]
  · simp [overloadCall, overloadRun, verifyArity, verifyArgTypes, mapCheck,
      verifyRetType, introspectRes, introspect, mapGet, INVALID_TYPES,
      JFun.arity, JFun.name, JFun.body, Except.bind, Bind.bind]
  · simp [overloadCall, overloadRun, verifyArity, verifyArgTypes, mapCheck,
      verifyRetType, introspectRes, introspect, mapGet, setHistory, HISTORY_LEN,
      INVALID_TYPES, JFun.arity, JFun.name, JFun.body, Except.bind, Bind.bind]
      <;> rfl

/-- Witness for C6 at concrete inputs, exercising every conjunct: the
argument check, the unregistered-key error, a function implementation with a
valid result, one with an invalid result, one returning a function, a
registered plain value, the rejected `undefined` registration, a successful
registration, and last-registration-wins. -/
theorem overload_dispatch_witness :
    overloadCall "app" [] (fun _ => "Number") (.num .nan) [] =
      .error (.argType "app" "NaN" 1 1 []) ∧
    overloadCall "app" [] (fun _ => "Missing") Value.null [] =
      .error (.overloadE "app" "Missing" "Null") ∧
    overloadCall "app" [("Number", OImpl.fn "f" (fun _ => .val (.num (.finite 9))))]
      (fun _ => "Number") (.num (.finite 1)) [] =
      .ok (.value (.num (.finite 9)), setHistory ["app" ++ "(" ++ "" ++ ")"] []) ∧
    overloadCall "app" [("Number", OImpl.fn "f" (fun _ => .val .undef))]
      (fun _ => "Number") (.num (.finite 1)) [] =
      .error (.retType "app" "Undefined" []) ∧
    overloadCall "app"
      [("Number", OImpl.fn "f"
        (fun _ => .fn (JFun.mk 1 "g" (fun _ => .val (.num (.finite 2))))))]
      (fun _ => "Number") (.num (.finite 1)) [] =
      .ok (.wrapped "g" (JFun.mk 1 "g" (fun _ => .val (.num (.finite 2))))
        ["app" ++ "(" ++ "" ++ ")"] .fix 1, []) ∧
    overloadCall "app" [("Number", OImpl.val (.num (.finite 5)))]
      (fun _ => "Number") (.num (.finite 1)) [] =
      .ok (.value (.num (.finite 5)), setHistory ["app" ++ "(" ++ "" ++ ")"] []) ∧
    overloadAdd "app" [] "K" (OImpl.val .undef) [] =
      .error (.argType "appAdd" "Undefined" 1 2 []) ∧
    overloadAdd "app" [] "k" (OImpl.fn "f" (fun _ => .val (.num (.finite 1)))) [] =
      .ok (mapSet [] "k" (OImpl.fn "f" (fun _ => .val (.num (.finite 1)))),
        setHistory ["appAdd" ++ "(" ++ ", " ++ ")"] []) ∧
    mapGet (mapSet (mapSet [] "k" (OImpl.val (.num (.finite 1)))) "k"
      (OImpl.val (.num (.finite 2)))) "k" = some (OImpl.val (.num (.finite 2))) :=
  ⟨overload_dispatch.1 "app" [] (fun _ => "Number") (.num .nan) [] "NaN"
      (by simp [introspect]) (by decide),
   overload_dispatch.2.1 "app" [] (fun _ => "Missing") Value.null [] "Null"
      (by simp [introspect]) (by decide) rfl,
   overload_dispatch.2.2.1 "app"
      [("Number", OImpl.fn "f" (fun _ => .val (.num (.finite 9))))]
      (fun _ => "Number") (.num (.finite 1)) [] "f"
      (fun _ => .val (.num (.finite 9))) (.num (.finite 9)) "Number" "Number"
      (by simp [introspect]) (by decide) rfl rfl (by simp [introspect]) (by decide),
   overload_dispatch.2.2.2.1 "app"
      [("Number", OImpl.fn "f" (fun _ => .val .undef))]
      (fun _ => "Number") (.num (.finite 1)) [] "f" (fun _ => .val .undef)
      (Value.undef) "Number" "Undefined"
      (by simp [introspect]) (by decide) rfl rfl (by simp [introspect]) (by decide),
   overload_dispatch.2.2.2.2.1 "app"
      [("Number", OImpl.fn "f"
        (fun _ => .fn (JFun.mk 1 "g" (fun _ => .val (.num (.finite 2))))))]
      (fun _ => "Number") (.num (.finite 1)) [] "f"
      (fun _ => .fn (JFun.mk 1 "g" (fun _ => .val (.num (.finite 2)))))
      (JFun.mk 1 "g" (fun _ => .val (.num (.finite 2)))) "Number"
      (by simp [introspect]) (by decide) rfl rfl,
   overload_dispatch.2.2.2.2.2.1 "app" [("Number", OImpl.val (.num (.finite 5)))]
      (fun _ => "Number") (.num (.finite 1)) [] (.num (.finite 5)) "Number" "Number"
      (by simp [introspect]) (by decide) rfl (by simp) (by intro n; simp)
      (by simp [introspect]) (by decide),
   overload_dispatch.2.2.2.2.2.2.1 "app" [] "K" [],
   overload_dispatch.2.2.2.2.2.2.2.1 "app" [] "k"
      (OImpl.fn "f" (fun _ => .val (.num (.finite 1)))) [] "λf" "Map<String, λf>"
      (by simp [OImpl.toValue, introspect]) (by decide)
      (by simp [registryValue, mapSet, OImpl.toValue, introspect, introspectMap,
        introspectPairs, addToSet, Except.bind, Bind.bind])
      (by decide),
   overload_dispatch.2.2.2.2.2.2.2.2 [] "k" (OImpl.val (.num (.finite 1)))
      (OImpl.val (.num (.finite 2)))⟩

/-! ## C5 — Array descriptor collapse -/

theorem introspectList_const (T : String) : ∀ (xs : List Value),
    (∀ x ∈ xs, introspect x = .ok T) →
    introspectList xs = .ok (xs.map (fun _ => T)) := by
  intro xs
  induction xs with
  | nil => intro _; simp [introspectList]
  | cons x xs ih =>
      intro hall
      have hx := hall x (by simp)
      have hrest := ih (fun y hy => hall y (by simp [hy]))
      simp only [introspectList, hx, hrest, Except.bind, Bind.bind]
      simp

theorem foldl_addToSet_all_eq (T : String) : ∀ (ts : List String),
    (∀ t ∈ ts, t = T) → ts.foldl addToSet [T] = [T] := by
  intro ts
  induction ts with
  | nil => intro _; rfl
  | cons t ts ih =>
      intro hall
      have ht : t = T := hall t (by simp)
      have hstep : addToSet [T] t = [T] := by simp [addToSet, ht]
      simp only [List.foldl_cons, hstep]
      exact ih (fun u hu => hall u (by simp [hu]))

theorem foldl_addToSet_const (T : String) : ∀ (ts : List String), ts ≠ [] →
    (∀ t ∈ ts, t = T) → ts.foldl addToSet [] = [T] := by
  intro ts hne hall
  cases ts with
  | nil => exact absurd rfl hne
  | cons t ts =>
      have ht : t = T := hall t (by simp)
      have h0 : addToSet [] t = [t] := by simp [addToSet]
      simp only [List.foldl_cons, h0, ht]
      exact foldl_addToSet_all_eq T ts (fun u hu => hall u (by simp [hu]))

theorem mem_foldl_addToSet : ∀ (ts acc : List String) (x : String),
    x ∈ ts ∨ x ∈ acc → x ∈ ts.foldl addToSet acc := by
  intro ts
  induction ts with
  | nil =>
      intro acc x h
      rcases h with h | h
      · simp at h
      · simpa
  | cons t ts ih =>
      intro acc x h
      simp only [List.foldl_cons]
      apply ih
      rcases h with h | h
      · rcases List.mem_cons.mp h with h | h
        · subst h
          right
          by_cases hx : x ∈ acc <;> simp [addToSet, hx]
        · left; exact h
      · right
        by_cases ht : t ∈ acc <;> simp [addToSet, ht, h]

/-- C5: a non-empty array whose elements all share one descriptor `T` has
descriptor `"[" + T + "]"`; an array of more than 8 elements among whose
element descriptors two distinct ones occur has descriptor `"[?]"`; an array
of at most 8 elements with two distinct element descriptors lists the element
descriptors positionally, separated by `", "`. -/
theorem array_descriptor_collapse :
    (∀ (xs : List Value) (T : String), xs ≠ [] →
       (∀ x ∈ xs, introspect x = .ok T) →
       introspect (.arr xs) = .ok ("[" ++ T ++ "]")) ∧
    (∀ (xs : List Value) (ts : List String) (t₁ t₂ : String),
       xs.length > MAX_TUP_SIZE →
       introspectList xs = .ok ts → t₁ ∈ ts → t₂ ∈ ts → t₁ ≠ t₂ →
       introspect (.arr xs) = .ok "[?]") ∧
    (∀ (xs : List Value) (ts : List String) (t₁ t₂ : String),
       xs.length ≤ MAX_TUP_SIZE →
       introspectList xs = .ok ts → t₁ ∈ ts → t₂ ∈ ts → t₁ ≠ t₂ →
       introspect (.arr xs) = .ok ("[" ++ String.intercalate ", " ts ++ "]")) := by
  refine ⟨?_, ?_, ?_⟩
  · intro xs T hne hall
    have hl := introspectList_const T xs hall
    have hmapne : xs.map (fun _ => T) ≠ [] := by
      simpa using hne
    have hmapall : ∀ t ∈ xs.map (fun _ => T), t = T := by
      intro t ht
      obtain ⟨a, _, h⟩ := List.mem_map.mp ht
      exact h.symm
    have hfold := foldl_addToSet_const T (xs.map (fun _ => T)) hmapne hmapall
    simp only [introspect, introspectArr]
    by_cases hlen : xs.length ≤ MAX_TUP_SIZE
    · rw [if_pos hlen]
      simp only [hl, Except.bind, Bind.bind, hfold]
    · rw [if_neg hlen]
      simp only [hl, Except.bind, Bind.bind, hfold]
  · intro xs ts t₁ t₂ hlen hl h1 h2 hne
    have hmem1 : t₁ ∈ ts.foldl addToSet [] := mem_foldl_addToSet ts [] t₁ (Or.inl h1)
    have hmem2 : t₂ ∈ ts.foldl addToSet [] := mem_foldl_addToSet ts [] t₂ (Or.inl h2)
    simp only [introspect, introspectArr]
    rw [if_neg (by omega)]
    simp only [hl, Except.bind, Bind.bind]
    cases hf : ts.foldl addToSet [] with
    | nil => rfl
    | cons u us =>
        cases us with
        | nil =>
            rw [hf] at hmem1 hmem2
            simp at hmem1 hmem2
            exact absurd (hmem1.trans hmem2.symm) hne
        | cons u2 us2 => rfl
  · intro xs ts t₁ t₂ hlen hl h1 h2 hne
    have hmem1 : t₁ ∈ ts.foldl addToSet [] := mem_foldl_addToSet ts [] t₁ (Or.inl h1)
    have hmem2 : t₂ ∈ ts.foldl addToSet [] := mem_foldl_addToSet ts [] t₂ (Or.inl h2)
    simp only [introspect, introspectArr]
    rw [if_pos hlen]
    simp only [hl, Except.bind, Bind.bind]
    cases hf : ts.foldl addToSet [] with
    | nil => rfl
    | cons u us =>
        cases us with
        | nil =>
            rw [hf] at hmem1 hmem2
            simp at hmem1 hmem2
            exact absurd (hmem1.trans hmem2.symm) hne
        | cons u2 us2 => rfl

/-- Witness for C5 at concrete arrays: `[1, 2]` collapses to `"[Number]"`; a
9-element mixed array collapses to `"[?]"`; `[1, "x"]` lists its descriptors
positionally. -/
theorem array_descriptor_collapse_witness :
    introspect (.arr [.num (.finite 1), .num (.finite 2)]) = .ok "[Number]" ∧
    introspect (.arr [.num (.finite 1), .num (.finite 2), .num (.finite 3),
      .num (.finite 4), .num (.finite 5), .num (.finite 6), .num (.finite 7),
      .num (.finite 8), .str "x"]) = .ok "[?]" ∧
    introspect (.arr [.num (.finite 1), .str "x"]) =
      .ok ("[" ++ String.intercalate ", " ["Number", "String"] ++ "]") :=
  ⟨array_descriptor_collapse.1 [.num (.finite 1), .num (.finite 2)] "Number"
      (by simp)
      (by intro x hx
          rcases List.mem_cons.mp hx with h | h
          · subst h; simp [introspect]
          · simp only [List.mem_singleton] at h; subst h; simp [introspect]),
   array_descriptor_collapse.2.1 [.num (.finite 1), .num (.finite 2), .num (.finite 3),
      .num (.finite 4), .num (.finite 5), .num (.finite 6), .num (.finite 7),
      .num (.finite 8), .str "x"]
      ["Number", "Number", "Number", "Number", "Number", "Number", "Number",
        "Number", "String"] "Number" "String"
      (by simp [MAX_TUP_SIZE])
      (by simp [introspectList, introspect, Except.bind, Bind.bind])
      (by simp) (by simp) (by decide),
   array_descriptor_collapse.2.2 [.num (.finite 1), .str "x"] ["Number", "String"]
      "Number" "String" (by simp [MAX_TUP_SIZE])
      (by simp [introspectList, introspect, Except.bind, Bind.bind])
      (by simp) (by simp) (by decide)⟩

/-! ## C4 — Totality of the descriptor engine -/

/-- C4 (code evaluated at the failing input): `introspect` is *not* total.
`introspectRec` coerces each field value into the template string
`` `${k}: ${r[k]}` ``; for a record whose field value is itself a `Rec`
instance, the `Symbol.toPrimitive` installed on `Rec.prototype` throws a
`TypeCoercionError`, so `introspect(Rec({a: Rec({})}))` throws instead of
returning a descriptor. -/
theorem introspect_throws_on_record_field :
    introspect (.record [("a", .record [])]) = .error (.coercion "Record") := by
  simp [introspect, introspectRec, recLengthField, introspectRec.introspectRecBody,
    introspectRec.recParts, jsToString, Except.bind, Bind.bind]

/-! ## C9 — Homogeneous array proxy mutation -/

theorem string_length_zero {s : String} (h : s.length = 0) : s = "" := by
  cases s with
  | mk data =>
      cases data with
      | nil => rfl
      | cons c cs => simp [String.length] at h

theorem introspect_arr_nil : introspect (.arr ([] : List Value)) = .ok "[]" := by
  simp [introspect, introspectArr, introspectList, MAX_TUP_SIZE, Except.bind, Bind.bind]
  rfl

theorem Arr_nil : Arr ([] : List Value) = .ok ([], "[]") := by
  simp only [Arr, introspect_arr_nil, Except.bind, Bind.bind]
  have hrn : replaceNestings "[]" = some "[]" := by
    simp [replaceNestings, auxNest, replace3, replRun]
  rw [hrn]
  simp [containsHeteroMark]

/-- C9 (amended): on a homogeneous array proxy with fixed descriptor
`t = "[T]"`, assigning at a numeric index `i ≤ length` a value whose
single-element descriptor equals `t` succeeds and stores the value; assigning
a value whose descriptor differs raises a `TypeError`-class violation (the JS
built-in `TypeError`, not `ArgTypeError`); and assigning at an index
`i > length` (a gap) likewise raises a `TypeError`-class violation. -/
theorem arr_proxy_mutation :
    (∀ (xs : List Value) (i : Nat) (v : Value) (t : String) (mode : SetMode)
       (tv : String),
       i ≤ xs.length → introspect v = .ok tv → ("[" ++ tv ++ "]") = t →
       setArr xs i v t mode = .ok (storeAt xs i v)) ∧
    (∀ (xs : List Value) (i : Nat) (v : Value) (t : String) (mode : SetMode)
       (tv txs : String),
       i ≤ xs.length → introspect v = .ok tv → ("[" ++ tv ++ "]") ≠ t →
       introspect (.arr xs) = .ok txs →
       setArr xs i v t mode = .error (.typeHetero txs tv) ∧
       (PErr.typeHetero txs tv).jsClass = .jsTypeError) ∧
    (∀ (xs : List Value) (i : Nat) (v : Value) (t : String) (mode : SetMode),
       xs.length < i →
       setArr xs i v t mode = .error (.typeGap i) ∧
       (PErr.typeGap i).jsClass = .jsTypeError) := by
  refine ⟨?_, ?_, ?_⟩
  · intro xs i v t mode tv hle hv ht
    simp only [setArr]
    rw [if_neg (by omega)]
    simp only [hv, Except.bind, Bind.bind]
    rw [if_neg (by simp [ht])]
    cases mode <;> rfl
  · intro xs i v t mode tv txs hle hv ht htxs
    refine ⟨?_, rfl⟩
    simp only [setArr]
    rw [if_neg (by omega)]
    simp only [hv, Except.bind, Bind.bind]
    rw [if_pos ht]
    simp only [htxs, hv, Except.bind, Bind.bind]
  · intro xs i v t mode hlt
    refine ⟨?_, rfl⟩
    simp only [setArr]
    rw [if_pos (by omega)]

/-- Counterexample to C9 as stated: wrapping `[1,2,3]` fixes the descriptor
`"[Number]"`; the mutation `arr[1] = "x"` is rejected with the JS built-in
`TypeError` (`"Arr must remain homogeneous"`, src/index.js line 1642), which
is not of the `ArgTypeError` class the claim names. -/
theorem arr_mismatch_raises_typeerror :
    setArr [.num (.finite 1), .num (.finite 2), .num (.finite 3)] 1 (.str "x")
      "[Number]" .setM = .error (.typeHetero "[Number]" "String") ∧
    (PErr.typeHetero "[Number]" "String").jsClass ≠ ErrClass.argTypeError := by
  constructor
  · simp only [setArr]
    rw [if_neg (by decide)]
    simp [introspect, introspectArr, introspectList, addToSet, MAX_TUP_SIZE,
      Except.bind, Bind.bind]
  · decide

/-- Witness for C9 at concrete inputs: on `[1,2,3]` with fixed descriptor
`"[Number]"`, `arr[3] = 4` succeeds, `arr[1] = "x"` raises the
`TypeError`-class heterogeneity violation, and `arr[5] = 4` raises the
`TypeError`-class gap violation. -/
theorem arr_proxy_mutation_witness :
    setArr [.num (.finite 1), .num (.finite 2), .num (.finite 3)] 3
        (.num (.finite 4)) "[Number]" .setM =
      .ok [.num (.finite 1), .num (.finite 2), .num (.finite 3), .num (.finite 4)] ∧
    (setArr [.num (.finite 1), .num (.finite 2), .num (.finite 3)] 1 (.str "x")
        "[Number]" .setM = .error (.typeHetero "[Number]" "String") ∧
      (PErr.typeHetero "[Number]" "String").jsClass = .jsTypeError) ∧
    (setArr [.num (.finite 1), .num (.finite 2), .num (.finite 3)] 5
        (.num (.finite 4)) "[Number]" .setM = .error (.typeGap 5) ∧
      (PErr.typeGap 5).jsClass = .jsTypeError) :=
  ⟨arr_proxy_mutation.1 [.num (.finite 1), .num (.finite 2), .num (.finite 3)] 3
      (.num (.finite 4)) "[Number]" .setM "Number" (by decide)
      (by simp [introspect]) rfl,
   arr_proxy_mutation.2.1 [.num (.finite 1), .num (.finite 2), .num (.finite 3)] 1
      (.str "x") "[Number]" .setM "String" "[Number]" (by decide)
      (by simp [introspect]) (by decide)
      (by simp [introspect, introspectArr, introspectList, addToSet, MAX_TUP_SIZE,
        Except.bind, Bind.bind]),
   arr_proxy_mutation.2.2 [.num (.finite 1), .num (.finite 2), .num (.finite 3)] 5
      (.num (.finite 4)) "[Number]" .setM (by decide)⟩

/-! ## C10 — The empty-array proxy -/

/-- C10 (amended): `Arr([])` succeeds — the empty array's descriptor `"[]"`
carries no heterogeneity marker — and fixes the descriptor `"[]"`; from then
on every indexed assignment of a value with a *non-empty* descriptor is
rejected (a gap error for `i > 0`, a heterogeneity error at `i = 0`, since
`"[" + T + "]" = "[]"` forces `T = ""`).  The sole exception, which the
original claim overlooks, is a crafted object carrying the library's `SIG`
property with the empty string, whose descriptor is `""`. -/
theorem empty_arr_write_dead :
    Arr ([] : List Value) = .ok ([], "[]") ∧
    (∀ (i : Nat) (v : Value) (mode : SetMode), 0 < i →
       setArr [] i v "[]" mode = .error (.typeGap i)) ∧
    (∀ (v : Value) (mode : SetMode) (tv : String),
       introspect v = .ok tv → tv ≠ "" →
       setArr [] 0 v "[]" mode = .error (.typeHetero "[]" tv)) := by
  refine ⟨Arr_nil, ?_, ?_⟩
  · intro i v mode hi
    simp only [setArr]
    rw [if_pos (by simpa using hi)]
  · intro v mode tv hv htv
    have hne : ("[" ++ tv ++ "]") ≠ "[]" := by
      intro h
      have hlen := congrArg String.length h
      rw [String.length_append, String.length_append] at hlen
      have h1 : ("[" : String).length = 1 := rfl
      have h2 : ("]" : String).length = 1 := rfl
      have h3 : ("[]" : String).length = 2 := rfl
      rw [h1, h2, h3] at hlen
      exact htv (string_length_zero (by omega))
    simp only [setArr]
    rw [if_neg (by omega)]
    simp only [hv, Except.bind, Bind.bind]
    rw [if_pos hne]
    simp only [introspect_arr_nil, hv, Except.bind, Bind.bind]

/-- Counterexample to C10 as stated: the construction succeeds, but not every
subsequent indexed assignment is rejected — an object carrying the library's
(exported) `SIG` property with value `""` has descriptor `""`, so its
single-element descriptor `"[" + "" + "]"` *equals* the fixed descriptor
`"[]"` and the assignment `arr[0] = v` is accepted and stored. -/
theorem empty_arr_accepts_empty_sig :
    Arr ([] : List Value) = .ok ([], "[]") ∧
    setArr [] 0 (.sig "") "[]" .setM = .ok [.sig ""] := by
  refine ⟨Arr_nil, ?_⟩
  simp [setArr, introspect, storeAt, Except.bind, Bind.bind]

/-- Witness for C10 at concrete inputs: on the empty-array proxy,
`arr[1] = 1` raises the gap violation and `arr[0] = 1` raises the
heterogeneity violation. -/
theorem empty_arr_write_dead_witness :
    Arr ([] : List Value) = .ok ([], "[]") ∧
    setArr [] 1 (.num (.finite 1)) "[]" .setM = .error (.typeGap 1) ∧
    setArr [] 0 (.num (.finite 1)) "[]" .setM = .error (.typeHetero "[]" "Number") :=
  ⟨empty_arr_write_dead.1,
   empty_arr_write_dead.2.1 1 (.num (.finite 1)) .setM (by decide),
   empty_arr_write_dead.2.2 (.num (.finite 1)) .setM "Number" (by simp [introspect])
      (by decide)⟩

end Scriptum
